import Mathlib

/-!
Verification development for the chiptune/MIDI piano visualizer.

The definitions below are a shallow embedding of the note-extraction and
preprocessing engine of `PianoVisualizer.cpp`, of the seek-request handling in
the audio callback, and of the preprocessing entry point of the main
translation unit.  The C++ code performs its arithmetic in 32-bit floats; the
embedding uses exact rationals (`ℚ`) for time, velocity and frequency values
and exact integers for register values, which is the idealized real-number
semantics of the same formulas.  Definitions named after source functions
follow the source; definitions whose names contain `Spec` follow the wording
of the specification document and exist only to be compared against the
source-derived ones.
-/

attribute [local semireducible] Rat.mul Rat.inv Rat.add Rat.sub Rat.ofScientific
  List.mergeSort List.merge

set_option maxRecDepth 40000

namespace FcVis

/-! ## Data model (`PianoVisualizer.h`) -/

/-- Preprocessed piano-roll note, mirroring `struct PianoRollNote`
(`channel`, `midi_note`, `velocity`, `start_time`, `end_time`). -/
structure PianoRollNote where
  channel : ℤ
  midi_note : ℤ
  velocity : ℚ
  start_time : ℚ
  end_time : ℚ
deriving DecidableEq, Repr

/-- Live display note state, mirroring `struct NesNoteInfo`. -/
structure NesNoteInfo where
  channel : ℤ
  midi_note : ℤ
  velocity : ℚ
  active : Bool
deriving DecidableEq, Repr

/-- NTSC CPU clock used by all frequency computations
(`NES_CPU_CLOCK = 1789773.0f`). -/
def NES_CPU_CLOCK : ℚ := 1789773

/-! ## Pitch inference (`PianoVisualizer.cpp:32-38`, `84-120`, `153-176`)

`PianoVisualizer::frequencyToMidi` computes `round(69 + 12*log2(f/440))` and
range-checks the result.  Over exact arithmetic, `round(69 + 12*log2(f/440)) = n`
holds iff `2^(2n-139) ≤ (f/440)^24 < 2^(2n-137)` (raise the two bounding
inequalities `n - 1/2 ≤ 69 + 12*log2(f/440) < n + 1/2` to the 24th power of 2);
for rational `f` the boundary cases never occur because `2^(odd/24)` is
irrational.  `freqBand` is that decidable characterization, and
`frequencyToMidi` below is the executable embedding of the source function.
The theorem `frequencyToMidi_eq_spec` proves it equal to the literal
`round`/`logb` formula. -/

/-- Decidable test for `round(69 + 12*log2(f/440)) = n`, expressed with exact
rational arithmetic. -/
def freqBand (n : ℕ) (f : ℚ) : Bool :=
  decide ((2:ℚ)^(2*(n:ℤ) - 139) ≤ (f/440)^24 ∧ (f/440)^24 < (2:ℚ)^(2*(n:ℤ) - 137))

/-- Embedding of `PianoVisualizer::frequencyToMidi`: `-1` for non-positive
frequency, otherwise `round(69 + 12*log2(f/440))` if that lands in `[0,127]`,
else `-1`.  The rounded value is recovered through `freqBand`. -/
def frequencyToMidi (f : ℚ) : ℤ :=
  if f ≤ 0 then -1 else
    match (List.range 128).find? (fun n => freqBand n f) with
    | some n => (n : ℤ)
    | none => -1

/-- Modelled from the spec's words (§4.1): pitch is
`round(69 + 12·log2(freq/440))`, silent (`-1`) for non-positive frequency or a
result outside `[0,127]`. -/
noncomputable def specFreqToPitch (f : ℚ) : ℤ :=
  if f ≤ 0 then -1
  else if round ((69:ℝ) + 12 * Real.logb 2 ((f:ℝ)/440)) < 0 ∨
          127 < round ((69:ℝ) + 12 * Real.logb 2 ((f:ℝ)/440)) then -1
  else round ((69:ℝ) + 12 * Real.logb 2 ((f:ℝ)/440))

/-- The frequency derived from a pulse/triangle/VRC6 period register:
`clock / (16 * (period + 1))`. -/
def periodFreq (period : ℕ) : ℚ := NES_CPU_CLOCK / (16 * ((period : ℚ) + 1))

/-- Per-channel pitch/velocity inference of `processApuFrame`
(`PianoVisualizer.cpp:84-120`): channel 3 is noise, 4 is DMC, 2 is triangle,
0/1 are the squares.  `amp` is passed through `std::abs` by the source. -/
def apuInfer (ch period length : ℕ) (amp : ℤ) : ℤ × ℚ :=
  let a : ℤ := |amp|
  if ch = 3 then
    if 0 < length ∧ 0 < a then
      (36 + (15 - ((period % 16 : ℕ) : ℤ)), min 1 ((a : ℚ) / 15))
    else (-1, 0)
  else if ch = 4 then
    if 0 < length then (28, 4/5) else (-1, 0)
  else if ch = 2 then
    if 0 < length ∧ 8 ≤ period then
      (frequencyToMidi (periodFreq period), 4/5)
    else (-1, 0)
  else
    if 0 < length ∧ 0 < a ∧ 8 ≤ period then
      (frequencyToMidi (periodFreq period), min 1 ((a : ℚ) / 15))
    else (-1, 0)

/-- Per-channel pitch/velocity inference of `processVrc6Frame`
(`PianoVisualizer.cpp:153-176`): `i = 0,1` are the VRC6 pulses, `i = 2` the
saw. -/
def vrc6Infer (i period volume : ℕ) (enabled : Bool) : ℤ × ℚ :=
  if enabled = true ∧ 0 < volume ∧ 1 ≤ period then
    (frequencyToMidi (periodFreq period),
     if i < 2 then min 1 ((volume : ℚ) / 15) else min 1 ((volume : ℚ) / 42))
  else (-1, 0)

/-- Modelled from the spec's words (§4.1 / C1): the per-channel reference
rules for the base APU channels, with `specFreqToPitch` as the
frequency-to-pitch conversion and amplitude read directly (no absolute
value). -/
noncomputable def apuInferSpec (ch period length : ℕ) (amp : ℤ) : ℤ × ℚ :=
  if ch = 0 ∨ ch = 1 then
    if 0 < length ∧ 0 < amp ∧ 8 ≤ period then
      (specFreqToPitch (periodFreq period), min 1 ((amp : ℚ) / 15))
    else (-1, 0)
  else if ch = 2 then
    if 0 < length ∧ 8 ≤ period then
      (specFreqToPitch (periodFreq period), 4/5)
    else (-1, 0)
  else if ch = 3 then
    if 0 < length ∧ 0 < amp then
      (36 + (15 - ((period % 16 : ℕ) : ℤ)), min 1 ((amp : ℚ) / 15))
    else (-1, 0)
  else
    if 0 < length then (28, 4/5) else (-1, 0)

/-- Modelled from the spec's words (§4.1 / C1): the reference rules for the
VRC6 expansion channels. -/
noncomputable def vrc6InferSpec (i period volume : ℕ) (enabled : Bool) : ℤ × ℚ :=
  if enabled = true ∧ 0 < volume ∧ 1 ≤ period then
    (specFreqToPitch (periodFreq period),
     if i < 2 then min 1 ((volume : ℚ) / 15) else min 1 ((volume : ℚ) / 42))
  else (-1, 0)

/-! ## Exactness of the band characterization of `round(69 + 12*log2(f/440))` -/

/-- For positive rational `f` and `k : ℤ`, comparing `2^k` against `(f/440)^24`
is the same as comparing `k/24` against `log2(f/440)`. -/
lemma zpow_le_iff_le_logb (f : ℚ) (hf : 0 < f) (k : ℤ) :
    ((2:ℚ)^k ≤ (f/440)^24 ↔ (k:ℝ)/24 ≤ Real.logb 2 ((f:ℝ)/440)) := by
  have hy : (0:ℝ) < (f:ℝ)/440 := by positivity
  rw [Real.le_logb_iff_rpow_le (by norm_num) hy]
  rw [← pow_le_pow_iff_left₀ (Real.rpow_nonneg (by norm_num) _) hy.le
    (by norm_num : (24:ℕ) ≠ 0)]
  rw [← Real.rpow_natCast ((2:ℝ) ^ ((k:ℝ)/24)) 24, ← Real.rpow_mul (by norm_num)]
  rw [show (k:ℝ)/24 * (24:ℕ) = (k:ℝ) by push_cast; ring, Real.rpow_intCast]
  rw [show ((f:ℝ)/440)^(24:ℕ) = (((f/440)^24 : ℚ) : ℝ) by push_cast; ring,
      show (2:ℝ) = ((2:ℚ):ℝ) by norm_num, ← Rat.cast_zpow, Rat.cast_le]

/-- Strict-inequality counterpart of `zpow_le_iff_le_logb`. -/
lemma logb_lt_iff_lt_zpow (f : ℚ) (hf : 0 < f) (k : ℤ) :
    (Real.logb 2 ((f:ℝ)/440) < (k:ℝ)/24 ↔ (f/440)^24 < (2:ℚ)^k) := by
  have hy : (0:ℝ) < (f:ℝ)/440 := by positivity
  rw [Real.logb_lt_iff_lt_rpow (by norm_num) hy]
  rw [← pow_lt_pow_iff_left₀ hy.le (Real.rpow_nonneg (by norm_num) _)
    (by norm_num : (24:ℕ) ≠ 0)]
  rw [← Real.rpow_natCast ((2:ℝ) ^ ((k:ℝ)/24)) 24, ← Real.rpow_mul (by norm_num)]
  rw [show (k:ℝ)/24 * (24:ℕ) = (k:ℝ) by push_cast; ring, Real.rpow_intCast]
  rw [show ((f:ℝ)/440)^(24:ℕ) = (((f/440)^24 : ℚ) : ℝ) by push_cast; ring,
      show (2:ℝ) = ((2:ℚ):ℝ) by norm_num, ← Rat.cast_zpow, Rat.cast_lt]

/-- The decidable band test `freqBand` recognizes exactly the rounded value of
the spec's pitch formula. -/
lemma freqBand_iff_round_eq (f : ℚ) (hf : 0 < f) (n : ℕ) :
    freqBand n f = true ↔
      round ((69:ℝ) + 12 * Real.logb 2 ((f:ℝ)/440)) = (n:ℤ) := by
  have h1 : (2:ℚ)^(2*(n:ℤ) - 139) ≤ (f/440)^24 ↔
      (2*(n:ℝ) - 139)/24 ≤ Real.logb 2 ((f:ℝ)/440) := by
    rw [zpow_le_iff_le_logb f hf]
    push_cast
    exact Iff.rfl
  have h2 : (f/440)^24 < (2:ℚ)^(2*(n:ℤ) - 137) ↔
      Real.logb 2 ((f:ℝ)/440) < (2*(n:ℝ) - 137)/24 := by
    rw [← logb_lt_iff_lt_zpow f hf]
    push_cast
    exact Iff.rfl
  rw [round_eq, Int.floor_eq_iff, freqBand, decide_eq_true_eq, h1, h2]
  have hc : (((n:ℤ)):ℝ) = (n:ℝ) := by push_cast; rfl
  rw [hc]
  constructor
  · rintro ⟨a, b⟩
    exact ⟨by linarith, by linarith⟩
  · rintro ⟨a, b⟩
    exact ⟨by linarith, by linarith⟩

/-- The executable source embedding of `frequencyToMidi` agrees with the
spec-worded `round`/`log2` pitch formula everywhere. -/
lemma frequencyToMidi_eq_spec (f : ℚ) : frequencyToMidi f = specFreqToPitch f := by
  by_cases hf : f ≤ 0
  · rw [frequencyToMidi, specFreqToPitch, if_pos hf, if_pos hf]
  · push_neg at hf
    rw [frequencyToMidi, specFreqToPitch, if_neg (not_le.mpr hf), if_neg (not_le.mpr hf)]
    cases hfind : (List.range 128).find? (fun n => freqBand n f) with
    | some n =>
        have hp : freqBand n f = true := by
          have h := List.find?_some hfind
          simpa using h
        have hmem : n ∈ List.range 128 := List.mem_of_find?_eq_some hfind
        have hn : round ((69:ℝ) + 12 * Real.logb 2 ((f:ℝ)/440)) = (n:ℤ) :=
          (freqBand_iff_round_eq f hf n).mp hp
        have hlt : n < 128 := List.mem_range.mp hmem
        rw [hn, if_neg (by omega)]
    | none =>
        have hall := List.find?_eq_none.mp hfind
        rw [if_pos]
        by_contra hc
        push_neg at hc
        obtain ⟨h0, h127⟩ := hc
        have hnn : (0:ℤ) ≤ round ((69:ℝ) + 12 * Real.logb 2 ((f:ℝ)/440)) := h0
        set m := round ((69:ℝ) + 12 * Real.logb 2 ((f:ℝ)/440)) with hm
        have hn : ((m.toNat : ℕ) : ℤ) = m := Int.toNat_of_nonneg hnn
        have hband : freqBand m.toNat f = true := by
          rw [freqBand_iff_round_eq f hf, hn, ← hm]
        exact hall m.toNat (List.mem_range.mpr (by omega)) (by simpa using hband)

/-! ## Note segmentation engine (`PianoVisualizer.cpp:122-149`, `178-204`) -/

/-- Per-channel segmentation state carried across frames
(`preprocess_prev_notes_[ch]`, `preprocess_note_start_[ch]`,
`preprocess_note_velocity_[ch]`).  `prev_note = -1` means "no open note". -/
structure SegCh where
  prev_note : ℤ
  note_start : ℚ
  note_velocity : ℚ
deriving DecidableEq, Repr

/-- Initial per-channel segmentation state set by `reset`/`preprocessTrack`. -/
def initSegCh : SegCh := ⟨-1, 0, 0⟩

/-- Close-and-emit step shared by the segmentation transition
(`PianoVisualizer.cpp:127-139`) and by `finalizePreprocessing`
(`PianoVisualizer.cpp:212-223`): if a note is open, emit it with `end_time = t`
provided its duration exceeds `0.01`. -/
def emitClose (ch : ℤ) (st : SegCh) (t : ℚ) (out : List PianoRollNote) :
    List PianoRollNote :=
  if 0 ≤ st.prev_note ∧ st.prev_note ≤ 127 then
    if 1/100 < t - st.note_start then
      out ++ [⟨ch, st.prev_note, st.note_velocity, st.note_start, t⟩]
    else out
  else out

/-- One segmentation transition for one channel
(`PianoVisualizer.cpp:122-149`): on pitch change or velocity collapse, close
the previous note and open a new one if the fresh inference is valid. -/
def segStep (ch midi_note : ℤ) (velocity t : ℚ) (st : SegCh)
    (out : List PianoRollNote) : SegCh × List PianoRollNote :=
  if midi_note ≠ st.prev_note ∨ velocity < 1/100 then
    let out1 := emitClose ch st t out
    if 0 ≤ midi_note ∧ midi_note ≤ 127 ∧ 1/100 < velocity then
      (⟨midi_note, t, velocity⟩, out1)
    else
      ({ st with prev_note := -1 }, out1)
  else (st, out)

/-- APU oscillator snapshot (the `periods`/`lengths`/`amplitudes` arrays read
from `osc_period`/`osc_length`/`osc_amplitude` for channels 0..4). -/
structure ApuSnap where
  periods : ℕ → ℕ
  lengths : ℕ → ℕ
  amplitudes : ℕ → ℤ

/-- VRC6 oscillator snapshot (`osc_period`/`osc_volume`/`osc_enabled` for the
three expansion channels). -/
structure Vrc6Snap where
  periods : ℕ → ℕ
  volumes : ℕ → ℕ
  enabled : ℕ → Bool

/-- One polled frame of the preprocessing loop: APU snapshot, optional VRC6
snapshot, and the virtual time at which both were processed. -/
structure Frame where
  apu : ApuSnap
  vrc6 : Option Vrc6Snap
  time : ℚ

/-- All 16 per-channel segmentation states (`PIANO_NUM_CHANNELS_MAX = 16`). -/
def SegState := ℕ → SegCh

/-- Segmentation state after `reset` (`preprocess_prev_notes_[i] = -1`). -/
def initSegState : SegState := fun _ => initSegCh

/-- Apply `segStep` to channel `ch`, leaving all other channels untouched. -/
def stepChannel (ch : ℕ) (mv : ℤ × ℚ) (t : ℚ)
    (s : SegState × List PianoRollNote) : SegState × List PianoRollNote :=
  let r := segStep (ch : ℤ) mv.1 mv.2 t (s.1 ch) s.2
  (fun c => if c = ch then r.1 else s.1 c, r.2)

/-- Embedding of `PianoVisualizer::processApuFrame`: infer pitch/velocity for
the five base channels and run the segmentation transition on each. -/
def processApuFrame (snap : ApuSnap) (t : ℚ)
    (s : SegState × List PianoRollNote) : SegState × List PianoRollNote :=
  (List.range 5).foldl (fun acc ch =>
    stepChannel ch (apuInfer ch (snap.periods ch) (snap.lengths ch) (snap.amplitudes ch)) t acc) s

/-- Embedding of `PianoVisualizer::processVrc6Frame`: channels 5, 6, 7. -/
def processVrc6Frame (snap : Vrc6Snap) (t : ℚ)
    (s : SegState × List PianoRollNote) : SegState × List PianoRollNote :=
  (List.range 3).foldl (fun acc i =>
    stepChannel (5 + i) (vrc6Infer i (snap.periods i) (snap.volumes i) (snap.enabled i)) t acc) s

/-- One iteration of the preprocessing chunk loop as it touches segmentation:
`processApuFrame` then, when the expansion chip is present,
`processVrc6Frame`, both at the same virtual time. -/
def processFrame (f : Frame) (s : SegState × List PianoRollNote) :
    SegState × List PianoRollNote :=
  let s1 := processApuFrame f.apu f.time s
  match f.vrc6 with
  | some v => processVrc6Frame v f.time s1
  | none => s1

/-- Run the segmentation over a whole polled frame sequence starting from the
reset state. -/
def processFrames (frames : List Frame) : SegState × List PianoRollNote :=
  frames.foldl (fun s f => processFrame f s) (initSegState, [])

/-- End-of-stream close of `finalizePreprocessing`
(`PianoVisualizer.cpp:210-225`): force-close every still-open channel at
`end_time`, same duration threshold as the live path. -/
def finalizeNotes (st : SegState) (end_time : ℚ) (out : List PianoRollNote) :
    List PianoRollNote :=
  (List.range 16).foldl (fun acc (ch : ℕ) => emitClose (ch : ℤ) (st ch) end_time acc) out

/-- Comparator of the final `std::sort` (`a.start_time < b.start_time`); any
comparison sort with it produces a permutation ordered by `start_time ≤`. -/
def noteLE (a b : PianoRollNote) : Bool := decide (a.start_time ≤ b.start_time)

/-- The final sort of `finalizePreprocessing`/`preprocessMidi`. -/
def sortNotes (l : List PianoRollNote) : List PianoRollNote := l.mergeSort noteLE

/-- The finalized preprocessed note collection of the oscillator-polling path:
segmentation over all frames, end-of-stream close at `end_time`, sort. -/
def apuPreprocessed (frames : List Frame) (end_time : ℚ) : List PianoRollNote :=
  let s := processFrames frames
  sortNotes (finalizeNotes s.1 end_time s.2)

/-! ## MIDI-event preprocessing (`PianoVisualizer.cpp:867-989`) -/

/-- Message kinds relevant to `preprocessMidi` (`TML_NOTE_ON`,
`TML_NOTE_OFF`, and everything the `default:` branch ignores). -/
inductive TmlType
  | noteOn
  | noteOff
  | other
deriving DecidableEq, Repr

/-- One parsed MIDI message (`tml_message`): time in milliseconds, kind,
channel, key, velocity. -/
structure TmlMsg where
  time : ℕ
  type : TmlType
  channel : ℤ
  key : ℤ
  velocity : ℕ
deriving DecidableEq, Repr

/-- Per-(channel, key) open-note state (`struct MidiNoteState`). -/
structure MidiNoteState where
  active : Bool
  start_time : ℚ
  velocity : ℚ
deriving DecidableEq, Repr

/-- The `midi_note_states_[16][128]` table, modelled as a total function; the
source only ever updates it at in-range indices. -/
def MidiStates := ℤ → ℤ → MidiNoteState

/-- Pointwise update of one `(channel, key)` cell. -/
def setMidiState (st : MidiStates) (c k : ℤ) (v : MidiNoteState) : MidiStates :=
  fun c1 k1 => if c1 = c ∧ k1 = k then v else st c1 k1

/-- Accumulated state of the `preprocessMidi` message loop: note-state table,
emitted notes, and the running `max_time`. -/
structure MidiAcc where
  states : MidiStates
  notes : List PianoRollNote
  max_time : ℚ

/-- The close-note bodies of the `TML_NOTE_OFF` case and of the
velocity-zero `TML_NOTE_ON` alias (`PianoVisualizer.cpp:911-931`,
`935-955`): in-range and active, emit if longer than `0.005`, clear the
active flag. -/
def closeMidiNote (acc : MidiAcc) (c k : ℤ) (t : ℚ) : MidiAcc :=
  if 0 ≤ c ∧ c < 16 ∧ 0 ≤ k ∧ k < 128 then
    let s := acc.states c k
    if s.active then
      { states := setMidiState acc.states c k { s with active := false },
        notes := if 1/200 < t - s.start_time then
            acc.notes ++ [⟨c, k, s.velocity, s.start_time, t⟩]
          else acc.notes,
        max_time := acc.max_time }
    else acc
  else acc

/-- One iteration of the message loop of `preprocessMidi`
(`PianoVisualizer.cpp:891-961`): update `max_time`, then dispatch on the
message type. -/
def midiStep (acc0 : MidiAcc) (msg : TmlMsg) : MidiAcc :=
  let t : ℚ := (msg.time : ℚ) / 1000
  let acc := { acc0 with max_time := if acc0.max_time < t then t else acc0.max_time }
  match msg.type with
  | TmlType.noteOn =>
      if 0 < msg.velocity then
        if 0 ≤ msg.channel ∧ msg.channel < 16 ∧ 0 ≤ msg.key ∧ msg.key < 128 then
          { acc with states :=
              setMidiState acc.states msg.channel msg.key (MidiNoteState.mk true t ((msg.velocity : ℚ) / 127)) }
        else acc
      else closeMidiNote acc msg.channel msg.key t
  | TmlType.noteOff => closeMidiNote acc msg.channel msg.key t
  | TmlType.other => acc

/-- The message loop of `preprocessMidi`, started from the reset state. -/
def midiMainPass (msgs : List TmlMsg) : MidiAcc :=
  msgs.foldl midiStep ⟨fun _ _ => ⟨false, 0, 0⟩, [], 0⟩

/-- End-of-stream close of `preprocessMidi` (`PianoVisualizer.cpp:963-979`):
every still-active `(channel, key)` is emitted unconditionally with
`end_time = max_time + 0.5`. -/
def midiFinalize (acc : MidiAcc) : List PianoRollNote :=
  (List.range 16).foldl (fun out (c : ℕ) =>
    (List.range 128).foldl (fun out1 (k : ℕ) =>
      let s := acc.states (c : ℤ) (k : ℤ)
      if s.active then
        out1 ++ [⟨(c : ℤ), (k : ℤ), s.velocity, s.start_time, acc.max_time + 1/2⟩]
      else out1) out) acc.notes

/-- The finalized preprocessed note collection of the MIDI-event path. -/
def preprocessMidi (msgs : List TmlMsg) : List PianoRollNote :=
  sortNotes (midiFinalize (midiMainPass msgs))

/-! ## Track preprocessing driver (`PianoVisualizer.cpp:237-333`) -/

/-- The visualizer fields `preprocessTrack` leaves behind, together with its
boolean return value. -/
structure PreprocessResult where
  ok : Bool
  preprocessed_notes : List PianoRollNote
  has_preprocessed_data : Bool
  track_duration : ℚ
deriving DecidableEq, Repr

/-- Duration estimate of `preprocessTrack` (`PianoVisualizer.cpp:265-268`):
the backend length (ms) when positive, else 180 s, capped at 300 s. -/
def estimatedDuration (length : ℤ) : ℚ :=
  min (if 0 < length then (length : ℚ) / 1000 else 180) 300

/-- The chunk loop of `preprocessTrack` (`PianoVisualizer.cpp:284-323`) viewed
through its loop counter: starting at chunk index `k`, keep iterating while
`current_time < estimated_duration` and the backend has not reported
end-of-track, where `current_time = k * dt`.  `fuel` is an upper bound on the
remaining iterations, used only to express the loop as structural recursion;
`chunkLoop_exit` shows the fuel chosen by `numChunks` never runs out. -/
def chunkLoop (ended : ℕ → Bool) (est dt : ℚ) : ℕ → ℕ → ℕ
  | 0, k => k
  | fuel+1, k =>
    if (k : ℚ) * dt < est ∧ ended k = false then chunkLoop ended est dt fuel (k+1) else k

/-- Number of chunks processed by the loop of `preprocessTrack`. -/
def numChunks (ended : ℕ → Bool) (est dt : ℚ) : ℕ :=
  chunkLoop ended est dt (⌈est/dt⌉₊ + 1) 0

/-- Embedding of `PianoVisualizer::preprocessTrack`.  Backend interactions
are parameters: `info_err`/`start_err` are the error outcomes of
`gme_track_info`/`gme_start_track`, `info_length` the reported length in ms,
`ended k` the end-of-track flag read before chunk `k`, and `snapshots k` the
APU and optional VRC6 oscillator state read after generating chunk `k`.  The
null-`emu`/null-callback early return (line 241) precedes the state reset and
is outside this model.  The chunk size is 1024 frames, so the virtual clock
advances `1024 / sample_rate` per iteration. -/
def preprocessTrack (info_err : Bool) (info_length : ℤ) (start_err : Bool)
    (ended : ℕ → Bool) (snapshots : ℕ → ApuSnap × Option Vrc6Snap)
    (sample_rate : ℚ) : PreprocessResult :=
  if info_err then ⟨false, [], false, 0⟩
  else if start_err then ⟨false, [], false, 0⟩
  else
    let est := estimatedDuration info_length
    let dt := 1024 / sample_rate
    let n := numChunks ended est dt
    let frames := (List.range n).map (fun (k : ℕ) =>
      Frame.mk (snapshots k).1 (snapshots k).2 ((k : ℚ) * dt))
    ⟨true, apuPreprocessed frames ((n : ℚ) * dt), true, (n : ℚ) * dt⟩

/-! ## Seek request handling (`src/unnamed/part_000`)

The audio callback drains the atomic cell with
`long seek_pos = state.seek_request.exchange(-1); if (seek_pos >= 0) gme_seek(...)`,
and the control surface stores into the same cell
(`state.seek_request.store(new_pos)`).  The model keeps the cell plus the
history of positions actually handed to the backend. -/

/-- Pending-seek cell (`state.seek_request`, `-1` meaning none) plus the
sequence of positions actually applied via `gme_seek`. -/
structure SeekState where
  seek_request : ℤ
  applied : List ℤ
deriving DecidableEq, Repr

/-- The two kinds of events touching the pending-seek cell. -/
inductive SeekAct
  | store (target : ℤ)
  | callback
deriving DecidableEq, Repr

/-- One event: a store overwrites the cell; a callback exchanges the cell
with `-1` and applies the drained value iff it is nonnegative. -/
def seekStep (s : SeekState) : SeekAct → SeekState
  | SeekAct.store t => { s with seek_request := t }
  | SeekAct.callback =>
      { seek_request := -1,
        applied := if 0 ≤ s.seek_request then s.applied ++ [s.seek_request] else s.applied }

/-- Run a sequence of seek events. -/
def seekRun (s : SeekState) (acts : List SeekAct) : SeekState := acts.foldl seekStep s

/-! ## Preprocessing entry point (`preprocess_piano_track` in
`src/unnamed/part_000`) -/

/-- The global player-state fields touched by `preprocess_piano_track`:
whether a backend is loaded (`state.emu` non-null), the atomic
`preprocessing` flag, the progress fraction, and the piano visualizer's
preprocessing output. -/
structure PlayerState where
  has_emu : Bool
  preprocessing : Bool
  preprocess_progress : ℚ
  piano : PreprocessResult
deriving DecidableEq, Repr

/-- Embedding of `preprocess_piano_track`: with no backend or a pass already
in flight it returns at once leaving the state untouched; otherwise the pass
runs to completion (file-read / backend-open failures abort with the flag
cleared and progress still 0), ending with the flag cleared and progress 1.
`pass` abstracts the `preprocessTrack` outcome of the private emulator
instance. -/
def preprocess_piano_track (s : PlayerState) (file_ok open_ok : Bool)
    (pass : PreprocessResult) : PlayerState :=
  if s.has_emu = false ∨ s.preprocessing = true then s
  else if file_ok = false then
    { s with preprocessing := false, preprocess_progress := 0 }
  else if open_ok = false then
    { s with preprocessing := false, preprocess_progress := 0 }
  else
    { s with preprocessing := false, preprocess_progress := 1, piano := pass }

/-! ## Live MIDI note entry points (`PianoVisualizer.cpp:785-827`) -/

/-- The visualizer state touched by `midiNoteOn`/`midiNoteOff`: per-channel
display notes, the MIDI note-state table, and the preprocessed collection. -/
structure VizState where
  current_notes : ℤ → NesNoteInfo
  midi_note_states : MidiStates
  preprocessed_notes : List PianoRollNote

/-- Pointwise update of one display-channel cell. -/
def setCurrentNote (f : ℤ → NesNoteInfo) (c : ℤ) (v : NesNoteInfo) :
    ℤ → NesNoteInfo :=
  fun c1 => if c1 = c then v else f c1

/-- Embedding of `PianoVisualizer::midiNoteOn` (`PianoVisualizer.cpp:785-798`):
range-guarded; in range it sets the display note and opens the note state. -/
def midiNoteOn (s : VizState) (channel note : ℤ) (velocity t : ℚ) : VizState :=
  if channel < 0 ∨ 16 ≤ channel then s
  else if note < 0 ∨ 127 < note then s
  else
    { current_notes := setCurrentNote s.current_notes channel ⟨channel, note, velocity, true⟩,
      midi_note_states := setMidiState s.midi_note_states channel note ⟨true, t, velocity⟩,
      preprocessed_notes := s.preprocessed_notes }

/-- Embedding of `PianoVisualizer::midiNoteOff`
(`PianoVisualizer.cpp:800-827`): range-guarded; in range it emits the open
note (threshold `0.01`), clears the open flag, and deactivates the display
note when it matches. -/
def midiNoteOff (s : VizState) (channel note : ℤ) (t : ℚ) : VizState :=
  if channel < 0 ∨ 16 ≤ channel then s
  else if note < 0 ∨ 127 < note then s
  else
    let st := s.midi_note_states channel note
    let notes1 :=
      if st.active then
        if 1/100 < t - st.start_time then
          s.preprocessed_notes ++ [⟨channel, note, st.velocity, st.start_time, t⟩]
        else s.preprocessed_notes
      else s.preprocessed_notes
    let states1 :=
      if st.active then
        setMidiState s.midi_note_states channel note { st with active := false }
      else s.midi_note_states
    let cur1 :=
      if (s.current_notes channel).midi_note = note then
        setCurrentNote s.current_notes channel { s.current_notes channel with active := false }
      else s.current_notes
    { current_notes := cur1, midi_note_states := states1, preprocessed_notes := notes1 }

/-! ## Concrete inputs used by witness instances -/

/-- One polled frame at `t = 0` with the noise channel (length 1,
amplitude 5) and the DMC channel (length 1) gated on. -/
def witFrames : List Frame :=
  [⟨⟨fun _ => 0, fun ch => if ch = 3 ∨ ch = 4 then 1 else 0,
     fun ch => if ch = 3 then 5 else 0⟩, none, 0⟩]

/-- Spec scenario 2: note-on(ch 0, key 60, vel 100, t = 0) then the
velocity-zero note-on alias at `t = 500 ms`. -/
def sc2Msgs : List TmlMsg :=
  [⟨0, TmlType.noteOn, 0, 60, 100⟩, ⟨500, TmlType.noteOn, 0, 60, 0⟩]

/-- A two-note chord on MIDI channel 0, both keys held over `[0 s, 1 s]`. -/
def cexMsgs : List TmlMsg :=
  [⟨0, TmlType.noteOn, 0, 60, 100⟩, ⟨0, TmlType.noteOn, 0, 64, 100⟩,
   ⟨1000, TmlType.noteOff, 0, 60, 0⟩, ⟨1000, TmlType.noteOff, 0, 64, 0⟩]

/-- Note-on closed by an explicit note-off at `t = 300 ms`. -/
def offMsgs : List TmlMsg :=
  [⟨0, TmlType.noteOn, 0, 60, 100⟩, ⟨300, TmlType.noteOff, 0, 60, 0⟩]

/-- A note-on left open while a later unrelated message sets the final event
time to `700 ms`. -/
def openMsgs : List TmlMsg :=
  [⟨0, TmlType.noteOn, 0, 60, 100⟩, ⟨700, TmlType.other, 0, 0, 0⟩]

/-- Number of chunks the loop of `preprocessTrack` processes for a given
backend length, end-of-track schedule and sample rate. -/
def preprocessChunks (info_length : ℤ) (ended : ℕ → Bool) (sample_rate : ℚ) : ℕ :=
  numChunks ended (estimatedDuration info_length) (1024 / sample_rate)

/-! ## Helper lemmas -/

/-- Disjointness of same-channel notes: an overlap of positive length between
notes of one channel is excluded. -/
def ChanDisjoint (a b : PianoRollNote) : Prop :=
  a.channel = b.channel → a.end_time ≤ b.start_time ∨ b.end_time ≤ a.start_time

instance : DecidableRel ChanDisjoint := fun a b => by
  unfold ChanDisjoint
  infer_instance

lemma ChanDisjoint.symm {a b : PianoRollNote} (h : ChanDisjoint a b) :
    ChanDisjoint b a := fun hc => (h hc.symm).symm

/-- Members of an `emitClose` result are old members or the freshly closed
note, which then passed the `0.01` duration check and has the open note's
payload with `end_time = t`. -/
lemma mem_emitClose {ch : ℤ} {st : SegCh} {t : ℚ} {out : List PianoRollNote}
    {n : PianoRollNote} (h : n ∈ emitClose ch st t out) :
    n ∈ out ∨
      (0 ≤ st.prev_note ∧ st.prev_note ≤ 127 ∧ 1/100 < t - st.note_start ∧
        n = ⟨ch, st.prev_note, st.note_velocity, st.note_start, t⟩) := by
  unfold emitClose at h
  split at h
  · split at h
    · rcases List.mem_append.mp h with h1 | h1
      · exact Or.inl h1
      · rename_i hc ht
        exact Or.inr ⟨hc.1, hc.2, ht, List.mem_singleton.mp h1⟩
    · exact Or.inl h
  · exact Or.inl h

/-- `emitClose` preserves the duration threshold. -/
lemma emitClose_dur {ch : ℤ} {st : SegCh} {t : ℚ} {out : List PianoRollNote}
    (h : ∀ n ∈ out, 1/100 < n.end_time - n.start_time) :
    ∀ n ∈ emitClose ch st t out, 1/100 < n.end_time - n.start_time := by
  intro n hn
  rcases mem_emitClose hn with h1 | ⟨_, _, ht, rfl⟩
  · exact h n h1
  · simpa using ht

/-- `segStep` preserves the duration threshold. -/
lemma segStep_dur {ch midi : ℤ} {vel t : ℚ} {st : SegCh} {out : List PianoRollNote}
    (h : ∀ n ∈ out, 1/100 < n.end_time - n.start_time) :
    ∀ n ∈ (segStep ch midi vel t st out).2, 1/100 < n.end_time - n.start_time := by
  unfold segStep
  split
  · split
    · exact emitClose_dur h
    · exact emitClose_dur h
  · exact h

/-- `stepChannel` preserves the duration threshold. -/
lemma stepChannel_dur {ch : ℕ} {mv : ℤ × ℚ} {t : ℚ}
    {s : SegState × List PianoRollNote}
    (h : ∀ n ∈ s.2, 1/100 < n.end_time - n.start_time) :
    ∀ n ∈ (stepChannel ch mv t s).2, 1/100 < n.end_time - n.start_time :=
  segStep_dur h

/-- Folding any per-channel `stepChannel` application over a channel list
preserves the duration threshold. -/
lemma foldChannels_dur (t : ℚ) (g : ℕ → ℕ) (mv : ℕ → ℤ × ℚ) :
    ∀ (chs : List ℕ) (s : SegState × List PianoRollNote),
      (∀ n ∈ s.2, 1/100 < n.end_time - n.start_time) →
      ∀ n ∈ (chs.foldl (fun acc ch => stepChannel (g ch) (mv ch) t acc) s).2,
        1/100 < n.end_time - n.start_time := by
  intro chs
  induction chs with
  | nil => intro s h; exact h
  | cons c cs ih =>
      intro s h
      exact ih _ (stepChannel_dur h)

/-- `processFrame` preserves the duration threshold. -/
lemma processFrame_dur {f : Frame} {s : SegState × List PianoRollNote}
    (h : ∀ n ∈ s.2, 1/100 < n.end_time - n.start_time) :
    ∀ n ∈ (processFrame f s).2, 1/100 < n.end_time - n.start_time := by
  unfold processFrame processApuFrame processVrc6Frame
  have h1 := foldChannels_dur f.time (fun ch => ch)
    (fun ch => apuInfer ch (f.apu.periods ch) (f.apu.lengths ch) (f.apu.amplitudes ch))
    (List.range 5) s h
  cases hv : f.vrc6 with
  | none => simpa [hv] using h1
  | some v =>
      simp only [hv]
      exact foldChannels_dur f.time (fun i => 5 + i)
        (fun i => vrc6Infer i (v.periods i) (v.volumes i) (v.enabled i))
        (List.range 3) _ h1

/-- The whole frame fold preserves the duration threshold. -/
lemma foldFrames_dur :
    ∀ (frames : List Frame) (s : SegState × List PianoRollNote),
      (∀ n ∈ s.2, 1/100 < n.end_time - n.start_time) →
      ∀ n ∈ (frames.foldl (fun acc f => processFrame f acc) s).2,
        1/100 < n.end_time - n.start_time := by
  intro frames
  induction frames with
  | nil => intro s h; exact h
  | cons f fs ih => intro s h; exact ih _ (processFrame_dur h)

/-- `finalizeNotes` preserves the duration threshold. -/
lemma finalizeNotes_dur {st : SegState} {end_time : ℚ} {out : List PianoRollNote}
    (h : ∀ n ∈ out, 1/100 < n.end_time - n.start_time) :
    ∀ n ∈ finalizeNotes st end_time out, 1/100 < n.end_time - n.start_time := by
  unfold finalizeNotes
  generalize (List.range 16) = chs
  induction chs generalizing out with
  | nil => exact h
  | cons c cs ih => exact ih (emitClose_dur h)

/-- Sorting neither adds nor removes notes. -/
lemma mem_sortNotes {l : List PianoRollNote} {n : PianoRollNote} :
    n ∈ sortNotes l ↔ n ∈ l := List.mem_mergeSort

/-- Every note of the finalized oscillator-path collection clears the `0.01`
threshold. -/
lemma apuPreprocessed_dur (frames : List Frame) (end_time : ℚ) :
    ∀ n ∈ apuPreprocessed frames end_time, 1/100 < n.end_time - n.start_time := by
  intro n hn
  have h1 : n ∈ finalizeNotes (processFrames frames).1 end_time (processFrames frames).2 :=
    mem_sortNotes.mp hn
  exact finalizeNotes_dur
    (foldFrames_dur frames (initSegState, []) (by intro n hn; cases hn)) n h1

/-! ## Helper lemmas: MIDI-path invariant -/

/-- Invariant of the `preprocessMidi` message loop: emitted durations exceed
`0.005`; every active cell was opened at an in-range index at a time bounded
by the running `max_time`. -/
structure MidiInv (acc : MidiAcc) : Prop where
  dur : ∀ n ∈ acc.notes, 1/200 < n.end_time - n.start_time
  start_le : ∀ c k : ℤ, (acc.states c k).active = true →
    (acc.states c k).start_time ≤ acc.max_time
  in_range : ∀ c k : ℤ, (acc.states c k).active = true →
    0 ≤ c ∧ c < 16 ∧ 0 ≤ k ∧ k < 128

/-- `closeMidiNote` preserves the invariant (the `max_time` field is kept). -/
lemma midiInv_close {acc : MidiAcc} (h : MidiInv acc) (c k : ℤ) (t : ℚ) :
    MidiInv (closeMidiNote acc c k t) := by
  unfold closeMidiNote
  split
  · dsimp only
    split
    · refine ⟨?_, ?_, ?_⟩
      · intro n hn
        simp only at hn
        split at hn
        · rcases List.mem_append.mp hn with h1 | h1
          · exact h.dur n h1
          · rename_i hthr
            rw [List.mem_singleton.mp h1]
            simpa using hthr
        · exact h.dur n hn
      · intro c1 k1 ha
        dsimp only
        simp only [setMidiState] at ha ⊢
        by_cases hck : c1 = c ∧ k1 = k
        · rw [if_pos hck] at ha
          simp at ha
        · rw [if_neg hck] at ha ⊢
          exact h.start_le c1 k1 ha
      · intro c1 k1 ha
        dsimp only at ha
        simp only [setMidiState] at ha
        by_cases hck : c1 = c ∧ k1 = k
        · rw [if_pos hck] at ha
          simp at ha
        · rw [if_neg hck] at ha
          exact h.in_range c1 k1 ha
    · exact h
  · exact h

/-- `midiStep` preserves the invariant. -/
lemma midiInv_step {acc : MidiAcc} (h : MidiInv acc) (msg : TmlMsg) :
    MidiInv (midiStep acc msg) := by
  unfold midiStep
  set t : ℚ := (msg.time : ℚ) / 1000 with ht
  have hmax : acc.max_time ≤ (if acc.max_time < t then t else acc.max_time) := by
    split
    · rename_i h1
      exact le_of_lt h1
    · exact le_rfl
  have htle : t ≤ (if acc.max_time < t then t else acc.max_time) := by
    split
    · exact le_rfl
    · rename_i h1
      exact le_of_not_lt h1
  have hbase : MidiInv { acc with
      max_time := if acc.max_time < t then t else acc.max_time } :=
    ⟨h.dur, fun c k ha => le_trans (h.start_le c k ha) hmax, h.in_range⟩
  cases hty : msg.type with
  | noteOn =>
      simp only
      split
      · split
        · rename_i hvel hrange
          refine ⟨hbase.dur, ?_, ?_⟩
          · intro c1 k1 ha
            dsimp only
            simp only [setMidiState] at ha ⊢
            by_cases hck : c1 = msg.channel ∧ k1 = msg.key
            · rw [if_pos hck]
              exact htle
            · rw [if_neg hck] at ha ⊢
              exact hbase.start_le c1 k1 ha
          · intro c1 k1 ha
            dsimp only at ha
            simp only [setMidiState] at ha
            by_cases hck : c1 = msg.channel ∧ k1 = msg.key
            · obtain ⟨hc, hk⟩ := hck
              subst hc; subst hk
              exact hrange
            · rw [if_neg hck] at ha
              exact hbase.in_range c1 k1 ha
        · exact hbase
      · exact midiInv_close hbase msg.channel msg.key t
  | noteOff => exact midiInv_close hbase msg.channel msg.key t
  | other => exact hbase

/-- The invariant holds after the whole message loop. -/
lemma midiInv_mainPass (msgs : List TmlMsg) : MidiInv (midiMainPass msgs) := by
  unfold midiMainPass
  have h0 : MidiInv ⟨fun _ _ => ⟨false, 0, 0⟩, [], 0⟩ := by
    refine ⟨?_, ?_, ?_⟩
    · intro n hn
      cases hn
    · intro c k ha
      simp at ha
    · intro c k ha
      simp at ha
  generalize hstart : (⟨fun _ _ => ⟨false, 0, 0⟩, [], 0⟩ : MidiAcc) = a0 at h0
  clear hstart
  induction msgs generalizing a0 with
  | nil => exact h0
  | cons m ms ih => exact ih _ (midiInv_step h0 m)

/-- Every note of the finalized MIDI collection clears the `0.005`
threshold: regular closes check it, and an end-of-stream close spans at
least `0.5`. -/
lemma midiFinalize_dur {acc : MidiAcc} (h : MidiInv acc) :
    ∀ n ∈ midiFinalize acc, 1/200 < n.end_time - n.start_time := by
  unfold midiFinalize
  have step : ∀ (c : ℕ) (out : List PianoRollNote),
      (∀ n ∈ out, 1/200 < n.end_time - n.start_time) →
      ∀ n ∈ (List.range 128).foldl (fun out1 (k : ℕ) =>
          if (acc.states (c : ℤ) (k : ℤ)).active = true then
            out1 ++ [⟨(c : ℤ), (k : ℤ), (acc.states (c : ℤ) (k : ℤ)).velocity,
              (acc.states (c : ℤ) (k : ℤ)).start_time, acc.max_time + 1/2⟩]
          else out1) out,
        1/200 < n.end_time - n.start_time := by
    intro c
    generalize (List.range 128) = ks
    induction ks with
    | nil => intro out hout; exact hout
    | cons k ks ih =>
        intro out hout
        refine ih _ ?_
        intro n hn
        dsimp only at hn
        split at hn
        · rcases List.mem_append.mp hn with h1 | h1
          · exact hout n h1
          · rename_i hact
            rw [List.mem_singleton.mp h1]
            have := h.start_le (c : ℤ) (k : ℤ) hact
            simp only
            linarith
        · exact hout n hn
  have outer : ∀ (cs : List ℕ) (out : List PianoRollNote),
      (∀ n ∈ out, 1/200 < n.end_time - n.start_time) →
      ∀ n ∈ cs.foldl (fun out (c : ℕ) =>
          (List.range 128).foldl (fun out1 (k : ℕ) =>
            if (acc.states (c : ℤ) (k : ℤ)).active = true then
              out1 ++ [⟨(c : ℤ), (k : ℤ), (acc.states (c : ℤ) (k : ℤ)).velocity,
                (acc.states (c : ℤ) (k : ℤ)).start_time, acc.max_time + 1/2⟩]
            else out1) out) out,
        1/200 < n.end_time - n.start_time := by
    intro cs
    induction cs with
    | nil => intro out hout; exact hout
    | cons c cs ih => intro out hout; exact ih _ (step c out hout)
  exact outer (List.range 16) acc.notes h.dur


/-- Every note the MIDI path finally stores clears the `0.005` threshold. -/
lemma preprocessMidi_dur (msgs : List TmlMsg) :
    ∀ n ∈ preprocessMidi msgs, 1/200 < n.end_time - n.start_time := by
  intro n hn
  exact midiFinalize_dur (midiInv_mainPass msgs) n (mem_sortNotes.mp hn)

/-! ## Helper lemmas: oscillator-path non-overlap invariant -/

/-- Induction invariant of the oscillator-path segmentation run: `b` bounds
all emitted end times and open-note starts; emitted notes of a channel end no
later than that channel's open-note start; and the emitted notes are pairwise
disjoint per channel. -/
structure SegInv (b : ℚ) (st : SegState) (out : List PianoRollNote) : Prop where
  ends_le : ∀ n ∈ out, n.end_time ≤ b
  open_start_le : ∀ c : ℕ, 0 ≤ (st c).prev_note → (st c).note_start ≤ b
  ends_le_open : ∀ c : ℕ, 0 ≤ (st c).prev_note →
    ∀ n ∈ out, n.channel = (c : ℤ) → n.end_time ≤ (st c).note_start
  pw : out.Pairwise ChanDisjoint

/-- The invariant's bound can be weakened upward. -/
lemma SegInv.mono {b t : ℚ} {st : SegState} {out : List PianoRollNote}
    (h : SegInv b st out) (hbt : b ≤ t) : SegInv t st out :=
  ⟨fun n hn => le_trans (h.ends_le n hn) hbt,
   fun c hc => le_trans (h.open_start_le c hc) hbt,
   h.ends_le_open, h.pw⟩

/-- The invariant holds at the reset state for any bound. -/
lemma segInv_init (b : ℚ) : SegInv b initSegState [] := by
  refine ⟨?_, ?_, ?_, List.Pairwise.nil⟩
  · intro n hn
    cases hn
  · intro c hc
    simp [initSegState, initSegCh] at hc
  · intro c hc
    simp [initSegState, initSegCh] at hc

/-- Closing channel `ch` at a later time `t` keeps all ends below `t`, keeps
same-channel disjointness, and does not disturb the ends-below-open-start
property of the other channels. -/
lemma segInv_emit {b t : ℚ} {st : SegState} {out : List PianoRollNote}
    (h : SegInv b st out) (hbt : b ≤ t) (ch : ℕ) :
    (∀ n ∈ emitClose (ch : ℤ) (st ch) t out, n.end_time ≤ t) ∧
    (emitClose (ch : ℤ) (st ch) t out).Pairwise ChanDisjoint ∧
    (∀ c : ℕ, c ≠ ch → 0 ≤ (st c).prev_note →
      ∀ n ∈ emitClose (ch : ℤ) (st ch) t out, n.channel = (c : ℤ) →
        n.end_time ≤ (st c).note_start) := by
  refine ⟨?_, ?_, ?_⟩
  · intro n hn
    rcases mem_emitClose hn with h1 | ⟨_, _, _, rfl⟩
    · exact le_trans (h.ends_le n h1) hbt
    · exact le_rfl
  · unfold emitClose
    split
    · rename_i hprev
      split
      · refine List.pairwise_append.mpr
          ⟨h.pw, List.pairwise_singleton _ _, ?_⟩
        intro a ha n0 hn0
        rw [List.mem_singleton.mp hn0]
        intro hcc
        exact Or.inl (h.ends_le_open ch hprev.1 a ha hcc)
      · exact h.pw
    · exact h.pw
  · intro c hc hcopen n hn hchan
    rcases mem_emitClose hn with h1 | ⟨_, _, _, rfl⟩
    · exact h.ends_le_open c hcopen n h1 hchan
    · exfalso
      have hcast : (ch : ℤ) = (c : ℤ) := hchan
      exact hc (by exact_mod_cast hcast.symm)

/-- One channel transition preserves the invariant, with the bound moved to
the transition time. -/
lemma segInv_stepChannel {b t : ℚ} {st : SegState} {out : List PianoRollNote}
    (h : SegInv b st out) (hbt : b ≤ t) (ch : ℕ) (mv : ℤ × ℚ) :
    SegInv t (stepChannel ch mv t (st, out)).1 (stepChannel ch mv t (st, out)).2 := by
  obtain ⟨hends, hpw, hother⟩ := segInv_emit h hbt ch
  unfold stepChannel segStep
  dsimp only
  by_cases h1 : mv.1 ≠ (st ch).prev_note ∨ mv.2 < 1/100
  · rw [if_pos h1]
    by_cases h2 : 0 ≤ mv.1 ∧ mv.1 ≤ 127 ∧ 1/100 < mv.2
    · rw [if_pos h2]
      dsimp only
      refine ⟨hends, ?_, ?_, hpw⟩
      · intro c hcopen
        by_cases hcch : c = ch
        · subst hcch
          simp
        · rw [if_neg hcch] at hcopen ⊢
          exact le_trans (h.open_start_le c hcopen) hbt
      · intro c hcopen n hn hchan
        by_cases hcch : c = ch
        · subst hcch
          rw [if_pos rfl]
          exact hends n hn
        · rw [if_neg hcch] at hcopen ⊢
          exact hother c hcch hcopen n hn hchan
    · rw [if_neg h2]
      dsimp only
      refine ⟨hends, ?_, ?_, hpw⟩
      · intro c hcopen
        by_cases hcch : c = ch
        · subst hcch
          rw [if_pos rfl] at hcopen
          simp at hcopen
        · rw [if_neg hcch] at hcopen ⊢
          exact le_trans (h.open_start_le c hcopen) hbt
      · intro c hcopen n hn hchan
        by_cases hcch : c = ch
        · subst hcch
          rw [if_pos rfl] at hcopen
          simp at hcopen
        · rw [if_neg hcch] at hcopen ⊢
          exact hother c hcch hcopen n hn hchan
  · rw [if_neg h1]
    dsimp only
    refine ⟨fun n hn => le_trans (h.ends_le n hn) hbt, ?_, ?_, h.pw⟩
    · intro c hcopen
      by_cases hcch : c = ch
      · subst hcch
        rw [if_pos rfl] at hcopen ⊢
        exact le_trans (h.open_start_le _ hcopen) hbt
      · rw [if_neg hcch] at hcopen ⊢
        exact le_trans (h.open_start_le c hcopen) hbt
    · intro c hcopen n hn hchan
      by_cases hcch : c = ch
      · subst hcch
        rw [if_pos rfl] at hcopen ⊢
        exact h.ends_le_open _ hcopen n hn hchan
      · rw [if_neg hcch] at hcopen ⊢
        exact h.ends_le_open c hcopen n hn hchan

/-- Folding channel transitions at one frame time preserves the invariant. -/
lemma segInv_foldChannels {t : ℚ} (g : ℕ → ℕ) (mv : ℕ → ℤ × ℚ) :
    ∀ (chs : List ℕ) (s : SegState × List PianoRollNote) (b : ℚ),
      SegInv b s.1 s.2 → b ≤ t →
      SegInv t (chs.foldl (fun acc ch => stepChannel (g ch) (mv ch) t acc) s).1
               (chs.foldl (fun acc ch => stepChannel (g ch) (mv ch) t acc) s).2 := by
  intro chs
  induction chs with
  | nil => intro s b h hbt; exact h.mono hbt
  | cons c cs ih =>
      intro s b h hbt
      exact ih _ t (segInv_stepChannel h hbt (g c) (mv c)) le_rfl

/-- Processing one frame moves the invariant bound to the frame time. -/
lemma segInv_processFrame {b : ℚ} {f : Frame} {s : SegState × List PianoRollNote}
    (h : SegInv b s.1 s.2) (hbt : b ≤ f.time) :
    SegInv f.time (processFrame f s).1 (processFrame f s).2 := by
  unfold processFrame processApuFrame processVrc6Frame
  have h1 := segInv_foldChannels (fun ch => ch)
    (fun ch => apuInfer ch (f.apu.periods ch) (f.apu.lengths ch) (f.apu.amplitudes ch))
    (List.range 5) s b h hbt
  cases hv : f.vrc6 with
  | none => simpa [hv] using h1
  | some v =>
      simp only [hv]
      exact segInv_foldChannels (fun i => 5 + i)
        (fun i => vrc6Infer i (v.periods i) (v.volumes i) (v.enabled i))
        (List.range 3) _ f.time h1 le_rfl

/-- Processing a chronologically ordered frame list preserves the invariant
at some final bound. -/
lemma segInv_foldFrames :
    ∀ (frames : List Frame) (s : SegState × List PianoRollNote) (b : ℚ),
      SegInv b s.1 s.2 →
      List.Chain' (fun a c : Frame => a.time ≤ c.time) frames →
      (∀ f ∈ frames.head?, b ≤ f.time) →
      ∃ b2, SegInv b2 (frames.foldl (fun acc f => processFrame f acc) s).1
                      (frames.foldl (fun acc f => processFrame f acc) s).2 := by
  intro frames
  induction frames with
  | nil => intro s b h _ _; exact ⟨b, h⟩
  | cons f fs ih =>
      intro s b h hchain hhead
      have hbf : b ≤ f.time := hhead f rfl
      have h1 := segInv_processFrame h hbf
      obtain ⟨hnext, hchain2⟩ := List.chain'_cons'.mp hchain
      exact ih _ f.time h1 hchain2 hnext

/-- Inside the fuel bound, every chunk index the loop stepped past had
passed the loop test. -/
lemma chunkLoop_mid (ended : ℕ → Bool) (est dt : ℚ) :
    ∀ (fuel k j : ℕ), k ≤ j → j < chunkLoop ended est dt fuel k →
      (j : ℚ) * dt < est ∧ ended j = false := by
  intro fuel
  induction fuel with
  | zero =>
      intro k j hkj hj
      rw [chunkLoop] at hj
      omega
  | succ fuel ih =>
      intro k j hkj hj
      rw [chunkLoop] at hj
      split at hj
      · rename_i hcond
        by_cases hjk : j = k
        · subst hjk
          exact hcond
        · exact ih (k+1) j (by omega) hj
      · omega

/-- With enough fuel, the loop stops only because the test failed. -/
lemma chunkLoop_exit (ended : ℕ → Bool) (est dt : ℚ) :
    ∀ (fuel k : ℕ), est ≤ ((k + fuel : ℕ) : ℚ) * dt →
      ¬ ((chunkLoop ended est dt fuel k : ℚ) * dt < est ∧
          ended (chunkLoop ended est dt fuel k) = false) := by
  intro fuel
  induction fuel with
  | zero =>
      intro k hk
      rw [chunkLoop]
      intro hcon
      push_cast at hk
      have h1 := hcon.1
      linarith
  | succ fuel ih =>
      intro k hk
      rw [chunkLoop]
      split
      · refine ih (k+1) ?_
        push_cast at hk ⊢
        linarith
      · rename_i hcond
        exact hcond

/-- Characterization of the chunk count: every processed chunk passed the
loop test, and the loop stopped on the horizon or on end-of-track. -/
lemma numChunks_spec (ended : ℕ → Bool) (est dt : ℚ) (hdt : 0 < dt) :
    (∀ j < numChunks ended est dt, (j : ℚ) * dt < est ∧ ended j = false) ∧
    (est ≤ (numChunks ended est dt : ℚ) * dt ∨
      ended (numChunks ended est dt) = true) := by
  constructor
  · intro j hj
    exact chunkLoop_mid ended est dt _ 0 j (Nat.zero_le j) hj
  · have hfuel : est ≤ ((0 + (⌈est/dt⌉₊ + 1) : ℕ) : ℚ) * dt := by
      push_cast
      have h1 : est / dt ≤ (⌈est/dt⌉₊ : ℚ) := Nat.le_ceil _
      have h2 : est = (est / dt) * dt := by
        field_simp
      nlinarith
    have h := chunkLoop_exit ended est dt (⌈est/dt⌉₊ + 1) 0 hfuel
    rw [not_and_or, not_lt] at h
    rcases h with h | h
    · exact Or.inl h
    · exact Or.inr (by simpa using h)

/-- Appending-only folds preserve membership. -/
lemma mem_foldl_of_mem {β : Type} (g : List PianoRollNote → β → List PianoRollNote)
    (hg : ∀ out a x, x ∈ out → x ∈ g out a) :
    ∀ (l : List β) (out : List PianoRollNote) (x : PianoRollNote),
      x ∈ out → x ∈ l.foldl g out := by
  intro l
  induction l with
  | nil => intro out x hx; exact hx
  | cons a as ih => intro out x hx; exact ih _ x (hg out a x hx)

/-- The inner finalize fold of the MIDI path only appends. -/
lemma innerFinalize_mono (acc : MidiAcc) (c : ℕ) :
    ∀ (out : List PianoRollNote) (a : ℕ) (x : PianoRollNote), x ∈ out →
      x ∈ (fun out1 (k1 : ℕ) =>
        if (acc.states (c : ℤ) (k1 : ℤ)).active = true then
          out1 ++ [⟨(c : ℤ), (k1 : ℤ), (acc.states (c : ℤ) (k1 : ℤ)).velocity,
            (acc.states (c : ℤ) (k1 : ℤ)).start_time, acc.max_time + 1/2⟩]
        else out1) out a := by
  intro out a x hx
  dsimp only
  split
  · exact List.mem_append_left _ hx
  · exact hx

/-- If cell `(c, k)` is still active, the inner finalize fold over a key list
containing `k` emits its force-closed note. -/
lemma mem_innerFinalize (acc : MidiAcc) (c k : ℕ)
    (hact : (acc.states (c : ℤ) (k : ℤ)).active = true) :
    ∀ (ks : List ℕ) (out : List PianoRollNote), k ∈ ks →
      (⟨(c : ℤ), (k : ℤ), (acc.states (c : ℤ) (k : ℤ)).velocity,
        (acc.states (c : ℤ) (k : ℤ)).start_time, acc.max_time + 1/2⟩ : PianoRollNote) ∈
        ks.foldl (fun out1 (k1 : ℕ) =>
          if (acc.states (c : ℤ) (k1 : ℤ)).active = true then
            out1 ++ [⟨(c : ℤ), (k1 : ℤ), (acc.states (c : ℤ) (k1 : ℤ)).velocity,
              (acc.states (c : ℤ) (k1 : ℤ)).start_time, acc.max_time + 1/2⟩]
          else out1) out := by
  intro ks
  induction ks with
  | nil => intro out hk; cases hk
  | cons k1 ks ih =>
      intro out hk
      rcases List.mem_cons.mp hk with heq | hk2
      · subst heq
        refine mem_foldl_of_mem _ (innerFinalize_mono acc c) ks _ _ ?_
        dsimp only
        rw [if_pos hact]
        exact List.mem_append_right _ (List.mem_singleton_self _)
      · exact ih _ hk2

/-- Every still-active in-range cell yields its force-closed note in
`midiFinalize`. -/
lemma mem_midiFinalize (acc : MidiAcc) (c k : ℕ) (hc : c < 16) (hk : k < 128)
    (hact : (acc.states (c : ℤ) (k : ℤ)).active = true) :
    (⟨(c : ℤ), (k : ℤ), (acc.states (c : ℤ) (k : ℤ)).velocity,
      (acc.states (c : ℤ) (k : ℤ)).start_time, acc.max_time + 1/2⟩ : PianoRollNote) ∈
      midiFinalize acc := by
  unfold midiFinalize
  have houter : ∀ (cs : List ℕ) (out : List PianoRollNote), c ∈ cs →
      (⟨(c : ℤ), (k : ℤ), (acc.states (c : ℤ) (k : ℤ)).velocity,
        (acc.states (c : ℤ) (k : ℤ)).start_time, acc.max_time + 1/2⟩ : PianoRollNote) ∈
        cs.foldl (fun out (c1 : ℕ) =>
          (List.range 128).foldl (fun out1 (k1 : ℕ) =>
            if (acc.states (c1 : ℤ) (k1 : ℤ)).active = true then
              out1 ++ [⟨(c1 : ℤ), (k1 : ℤ), (acc.states (c1 : ℤ) (k1 : ℤ)).velocity,
                (acc.states (c1 : ℤ) (k1 : ℤ)).start_time, acc.max_time + 1/2⟩]
            else out1) out) out := by
    intro cs
    induction cs with
    | nil => intro out hc0; cases hc0
    | cons c1 cs ih =>
        intro out hc0
        rcases List.mem_cons.mp hc0 with heq | hc2
        · subst heq
          refine mem_foldl_of_mem _ ?_ cs _ _ ?_
          · intro o a x hx
            exact mem_foldl_of_mem _ (innerFinalize_mono acc a) _ _ _ hx
          · exact mem_innerFinalize acc c k hact (List.range 128) out
              (List.mem_range.mpr hk)
        · exact ih _ hc2
  exact houter (List.range 16) acc.notes (List.mem_range.mpr hc)

/-- Force-close at end of stream: every cell still active after the message
loop produces a note ending at `max_time + 0.5` in the final collection. -/
lemma preprocessMidi_force_close (msgs : List TmlMsg) (c k : ℤ)
    (hact : ((midiMainPass msgs).states c k).active = true) :
    ∃ n ∈ preprocessMidi msgs, n.channel = c ∧ n.midi_note = k ∧
      n.velocity = ((midiMainPass msgs).states c k).velocity ∧
      n.start_time = ((midiMainPass msgs).states c k).start_time ∧
      n.end_time = (midiMainPass msgs).max_time + 1/2 := by
  obtain ⟨hc0, hc16, hk0, hk128⟩ := (midiInv_mainPass msgs).in_range c k hact
  have hcn : ((c.toNat : ℕ) : ℤ) = c := Int.toNat_of_nonneg hc0
  have hkn : ((k.toNat : ℕ) : ℤ) = k := Int.toNat_of_nonneg hk0
  have hact2 : ((midiMainPass msgs).states ((c.toNat : ℕ) : ℤ)
      ((k.toNat : ℕ) : ℤ)).active = true := by
    rw [hcn, hkn]
    exact hact
  have hmem := mem_midiFinalize (midiMainPass msgs) c.toNat k.toNat
    (by omega) (by omega) hact2
  refine ⟨_, mem_sortNotes.mpr hmem, hcn, hkn, ?_, ?_, rfl⟩
  · rw [hcn, hkn]
  · rw [hcn, hkn]

/-- The end-of-stream close keeps per-channel disjointness: each channel is
visited once, and the note it may add starts no earlier than every previously
collected same-channel note ends. -/
lemma finalize_pairwise {st : SegState} {tEnd : ℚ} :
    ∀ (chs : List ℕ) (out : List PianoRollNote),
      chs.Nodup →
      out.Pairwise ChanDisjoint →
      (∀ c ∈ chs, 0 ≤ (st c).prev_note →
        ∀ n ∈ out, n.channel = (c : ℤ) → n.end_time ≤ (st c).note_start) →
      (chs.foldl (fun acc (ch : ℕ) => emitClose (ch : ℤ) (st ch) tEnd acc) out).Pairwise
        ChanDisjoint := by
  intro chs
  induction chs with
  | nil => intro out _ hpw _; exact hpw
  | cons c cs ih =>
      intro out hnodup hpw hopen
      obtain ⟨hnotin, hnodup2⟩ := List.nodup_cons.mp hnodup
      refine ih _ hnodup2 ?_ ?_
      · unfold emitClose
        dsimp only
        split
        · rename_i hprev
          split
          · refine List.pairwise_append.mpr
              ⟨hpw, List.pairwise_singleton _ _, ?_⟩
            intro a ha n0 hn0
            rw [List.mem_singleton.mp hn0]
            intro hcc
            exact Or.inl (hopen c (List.mem_cons_self _ _) hprev.1 a ha hcc)
          · exact hpw
        · exact hpw
      · intro c1 hc1 hc1open n hn hchan
        rcases mem_emitClose hn with h1 | ⟨_, _, _, rfl⟩
        · exact hopen c1 (List.mem_cons_of_mem _ hc1) hc1open n h1 hchan
        · exfalso
          have hcast : (c : ℤ) = (c1 : ℤ) := hchan
          have hcc1 : c = c1 := by exact_mod_cast hcast
          exact hnotin (by rwa [hcc1])

/-- Disjointness is a symmetric relation, so sorting preserves it. -/
lemma sortNotes_pairwise_chanDisjoint {l : List PianoRollNote}
    (h : l.Pairwise ChanDisjoint) : (sortNotes l).Pairwise ChanDisjoint :=
  ((List.mergeSort_perm l noteLE).pairwise_iff
    (fun hab => ChanDisjoint.symm hab)).mpr h

/-- Same-channel disjointness of the finalized oscillator-path output, for
chronologically ordered frames. -/
lemma apuPreprocessed_pairwise (frames : List Frame) (end_time : ℚ)
    (hchain : List.Chain' (fun a c : Frame => a.time ≤ c.time) frames) :
    (apuPreprocessed frames end_time).Pairwise ChanDisjoint := by
  obtain ⟨b2, hinv⟩ := segInv_foldFrames frames (initSegState, [])
    (frames.head?.elim 0 Frame.time) (segInv_init _) hchain (by
      intro f hf
      rw [Option.mem_def] at hf
      rw [hf]
      exact le_rfl)
  refine sortNotes_pairwise_chanDisjoint ?_
  exact finalize_pairwise (List.range 16) _ (List.nodup_range 16) hinv.pw
    (fun c _ hcopen n hn hchan => hinv.ends_le_open c hcopen n hn hchan)

/-- The sorted output is pairwise nondecreasing in `start_time`. -/
lemma sortNotes_sorted (l : List PianoRollNote) :
    (sortNotes l).Pairwise (fun a b => a.start_time ≤ b.start_time) := by
  have h := @List.sorted_mergeSort PianoRollNote noteLE
    (fun a b c hab hbc => by
      simp only [noteLE, decide_eq_true_eq] at hab hbc ⊢
      exact le_trans hab hbc)
    (fun a b => by
      simp only [noteLE]
      rcases le_total a.start_time b.start_time with h1 | h1
      · simp [h1]
      · simp [h1])
    l
  exact h.imp (fun hab => by simpa [noteLE] using hab)

/-- Callbacks with nothing pending neither apply seeks nor change the cell. -/
lemma seekRun_replicate_callback (l : List ℤ) (n : ℕ) :
    seekRun ⟨-1, l⟩ (List.replicate n SeekAct.callback) = ⟨-1, l⟩ := by
  induction n with
  | zero => rfl
  | succ n ih =>
      rw [List.replicate_succ]
      show seekRun (seekStep ⟨-1, l⟩ SeekAct.callback) (List.replicate n SeekAct.callback) = _
      have h : seekStep ⟨-1, l⟩ SeekAct.callback = ⟨-1, l⟩ := by
        simp [seekStep]
      rw [h]
      exact ih

/-! ## Claim theorems -/

/-- C1: pitch inference equals the spec's per-channel reference rules: for
every snapshot, the pulse/square channels gate on `length > 0`, `amplitude > 0`
and `period ≥ 8` with pitch `round(69 + 12*log2((clock/(16(period+1)))/440))`
and velocity `min(1, amplitude/15)`; the triangle gates without amplitude and
has fixed velocity `0.8`; the noise gates on `length`/`amplitude` with pitch
`36 + (15 - (period & 0xF))`; the DMC gates on `length` alone with fixed pitch
and velocity `0.8`; the VRC6 pulses/saw gate on `enabled`, `volume > 0`,
`period ≥ 1` with velocities `min(1, volume/15)` and `min(1, volume/42)`; and
an out-of-range or non-positive-frequency conversion is silent (`-1`). -/
theorem pitch_inference_matches_spec :
    (∀ ch period length amp, ch < 5 → 0 ≤ amp →
      apuInfer ch period length amp = apuInferSpec ch period length amp) ∧
    (∀ i period volume enabled,
      vrc6Infer i period volume enabled = vrc6InferSpec i period volume enabled) := by
  constructor
  · intro ch period length amp hch ha
    have habs : |amp| = amp := abs_of_nonneg ha
    interval_cases ch <;>
      simp [apuInfer, apuInferSpec, habs, frequencyToMidi_eq_spec]
  · intro i period volume enabled
    simp [vrc6Infer, vrc6InferSpec, frequencyToMidi_eq_spec]

/-- Witness for C1 at a concrete square-channel snapshot. -/
theorem pitch_inference_matches_spec_witness :
    (0:ℕ) < 5 ∧ (0:ℤ) ≤ 7 ∧ apuInfer 0 253 1 7 = apuInferSpec 0 253 1 7 :=
  ⟨by decide, by decide, pitch_inference_matches_spec.1 0 253 1 7 (by decide) (by decide)⟩

/-- C5: seek-once semantics.  Every callback leaves the pending cell at the
`-1` sentinel; a second consecutive callback applies nothing further (so no
target is applied twice); and two stores followed by any positive number of
callbacks apply exactly the second target, exactly once. -/
theorem seek_once_semantics :
    (∀ s : SeekState, (seekStep s SeekAct.callback).seek_request = -1) ∧
    (∀ s : SeekState,
      (seekRun s [SeekAct.callback, SeekAct.callback]).applied =
        (seekStep s SeekAct.callback).applied) ∧
    (∀ t1 t2 : ℤ, 0 ≤ t2 → ∀ n : ℕ,
      seekRun ⟨-1, []⟩
          (SeekAct.store t1 :: SeekAct.store t2 :: List.replicate (n+1) SeekAct.callback)
        = ⟨-1, [t2]⟩) := by
  refine ⟨fun s => rfl, fun s => ?_, fun t1 t2 ht n => ?_⟩
  · show (seekStep (seekStep s SeekAct.callback) SeekAct.callback).applied = _
    simp [seekStep]
  · show seekRun (seekStep (seekStep (seekStep ⟨-1, []⟩ (SeekAct.store t1)) (SeekAct.store t2))
      SeekAct.callback) (List.replicate n SeekAct.callback) = _
    have h1 : seekStep (seekStep (seekStep ⟨-1, []⟩ (SeekAct.store t1)) (SeekAct.store t2))
        SeekAct.callback = ⟨-1, [t2]⟩ := by
      simp [seekStep, ht]
    rw [h1]
    exact seekRun_replicate_callback [t2] n

/-- Witness for C5: two stores then one callback, concrete targets. -/
theorem seek_once_semantics_witness :
    (0:ℤ) ≤ 9 ∧
      seekRun ⟨-1, []⟩
          (SeekAct.store 5 :: SeekAct.store 9 :: List.replicate 1 SeekAct.callback)
        = ⟨-1, [9]⟩ :=
  ⟨by decide, seek_once_semantics.2.2 5 9 (by decide) 0⟩

/-- C7: if the backend fails to report track metadata or to start the
requested track, `preprocessTrack` returns failure, retains no partial
timeline, and leaves the ready flag false. -/
theorem preprocess_failure_atomicity :
    ∀ (info_err : Bool) (info_length : ℤ) (start_err : Bool)
      (ended : ℕ → Bool) (snapshots : ℕ → ApuSnap × Option Vrc6Snap)
      (sample_rate : ℚ),
      info_err = true ∨ start_err = true →
      (preprocessTrack info_err info_length start_err ended snapshots sample_rate).ok = false ∧
      (preprocessTrack info_err info_length start_err ended snapshots sample_rate).preprocessed_notes = [] ∧
      (preprocessTrack info_err info_length start_err ended snapshots sample_rate).has_preprocessed_data = false := by
  intro info_err info_length start_err ended snapshots sample_rate h
  rcases h with h | h
  · subst h
    simp [preprocessTrack]
  · subst h
    cases info_err <;> simp [preprocessTrack]

/-- Witness for C7 at a concrete failing metadata call. -/
theorem preprocess_failure_atomicity_witness :
    (true = true ∨ false = true) ∧
      (preprocessTrack true 0 false (fun _ => true)
        (fun _ => (⟨fun _ => 0, fun _ => 0, fun _ => 0⟩, none)) 48000).ok = false :=
  ⟨Or.inl rfl,
    (preprocess_failure_atomicity true 0 false (fun _ => true)
      (fun _ => (⟨fun _ => 0, fun _ => 0, fun _ => 0⟩, none)) 48000 (Or.inl rfl)).1⟩

/-- C8: a preprocessing request issued while the preprocessing-in-progress
flag is set is a silent no-op: the call returns immediately and the whole
player state is unchanged. -/
theorem concurrent_preprocess_rejected :
    ∀ (s : PlayerState) (file_ok open_ok : Bool) (pass : PreprocessResult),
      s.preprocessing = true →
      preprocess_piano_track s file_ok open_ok pass = s := by
  intro s file_ok open_ok pass h
  simp [preprocess_piano_track, h]

/-- Witness for C8 with a concrete in-flight state. -/
theorem concurrent_preprocess_rejected_witness :
    (PlayerState.mk true true 0 ⟨false, [], false, 0⟩).preprocessing = true ∧
      preprocess_piano_track (PlayerState.mk true true 0 ⟨false, [], false, 0⟩)
          true true ⟨true, [], true, 1⟩
        = PlayerState.mk true true 0 ⟨false, [], false, 0⟩ :=
  ⟨rfl, concurrent_preprocess_rejected _ true true _ rfl⟩

/-- C10: `midiNoteOn` and `midiNoteOff` return immediately for a channel
outside `[0,16)` or a note outside `[0,127]`, leaving the whole visualizer
state unchanged. -/
theorem midi_note_range_guard :
    ∀ (s : VizState) (channel note : ℤ) (velocity t : ℚ),
      channel < 0 ∨ 16 ≤ channel ∨ note < 0 ∨ 127 < note →
      midiNoteOn s channel note velocity t = s ∧ midiNoteOff s channel note t = s := by
  intro s channel note velocity t h
  by_cases hc : channel < 0 ∨ 16 ≤ channel
  · rw [midiNoteOn, midiNoteOff, if_pos hc, if_pos hc]
    exact ⟨rfl, rfl⟩
  · have hn : note < 0 ∨ 127 < note := by tauto
    rw [midiNoteOn, midiNoteOff, if_neg hc, if_neg hc, if_pos hn, if_pos hn]
    exact ⟨rfl, rfl⟩

/-- C2 counterexample: a MIDI event list (a two-note chord on channel 0)
whose preprocessed collection contains two same-channel notes that overlap in
time, refuting the claim's same-channel non-overlap for the MIDI path. -/
theorem segmentation_closure_cex :
    ¬ (preprocessMidi cexMsgs).Pairwise ChanDisjoint := by decide

/-- C2 (amended): every note of the finalized preprocessed collection of
either path satisfies `end_time > start_time` strictly, and in the APU/VRC6
polling path — whose frames are processed in chronological order — no two
notes of the same channel overlap.  (The MIDI path keeps overlapping
same-channel notes: a chord is two notes on one channel.) -/
theorem segmentation_closure :
    (∀ frames end_time, ∀ n ∈ apuPreprocessed frames end_time,
        n.start_time < n.end_time) ∧
    (∀ frames end_time, List.Chain' (fun a c : Frame => a.time ≤ c.time) frames →
        (apuPreprocessed frames end_time).Pairwise ChanDisjoint) ∧
    (∀ msgs, ∀ n ∈ preprocessMidi msgs, n.start_time < n.end_time) := by
  refine ⟨?_, ?_, ?_⟩
  · intro frames end_time n hn
    have h := apuPreprocessed_dur frames end_time n hn
    linarith
  · intro frames end_time hchain
    exact apuPreprocessed_pairwise frames end_time hchain
  · intro msgs n hn
    have h := preprocessMidi_dur msgs n hn
    linarith

/-- Witness for C2 at the concrete frame and message lists. -/
theorem segmentation_closure_witness :
    (⟨3, 51, 1/3, 0, 1⟩ : PianoRollNote).start_time <
        (⟨3, 51, 1/3, 0, 1⟩ : PianoRollNote).end_time ∧
      (apuPreprocessed witFrames 1).Pairwise ChanDisjoint ∧
      (⟨0, 60, 100/127, 0, 1/2⟩ : PianoRollNote).start_time <
        (⟨0, 60, 100/127, 0, 1/2⟩ : PianoRollNote).end_time :=
  ⟨segmentation_closure.1 witFrames 1 _ (by decide),
   segmentation_closure.2.1 witFrames 1 (List.chain'_singleton _),
   segmentation_closure.2.2 sc2Msgs _ (by decide)⟩

/-- C3: every note kept by the oscillator-inference path has duration
strictly above `0.01 s`, and every note kept by the MIDI path strictly above
`0.005 s`, including notes closed at end of stream. -/
theorem sub_threshold_notes_discarded :
    (∀ frames end_time, ∀ n ∈ apuPreprocessed frames end_time,
        1/100 < n.end_time - n.start_time) ∧
    (∀ msgs, ∀ n ∈ preprocessMidi msgs, 1/200 < n.end_time - n.start_time) :=
  ⟨apuPreprocessed_dur, preprocessMidi_dur⟩

/-- Witness for C3 at the concrete frame and message lists. -/
theorem sub_threshold_notes_discarded_witness :
    1/100 < (⟨4, 28, 4/5, 0, 1⟩ : PianoRollNote).end_time -
        (⟨4, 28, 4/5, 0, 1⟩ : PianoRollNote).start_time ∧
      1/200 < (⟨0, 60, 100/127, 0, 1/2⟩ : PianoRollNote).end_time -
        (⟨0, 60, 100/127, 0, 1/2⟩ : PianoRollNote).start_time :=
  ⟨sub_threshold_notes_discarded.1 witFrames 1 _ (by decide),
   sub_threshold_notes_discarded.2 sc2Msgs _ (by decide)⟩

/-- C4: after finalization of either preprocessing pass, the stored note
collection is sorted by `start_time` ascending. -/
theorem timeline_sorted :
    (∀ frames end_time i, ∀ h : i + 1 < (apuPreprocessed frames end_time).length,
      ((apuPreprocessed frames end_time).get ⟨i, Nat.lt_of_succ_lt h⟩).start_time ≤
      ((apuPreprocessed frames end_time).get ⟨i+1, h⟩).start_time) ∧
    (∀ msgs i, ∀ h : i + 1 < (preprocessMidi msgs).length,
      ((preprocessMidi msgs).get ⟨i, Nat.lt_of_succ_lt h⟩).start_time ≤
      ((preprocessMidi msgs).get ⟨i+1, h⟩).start_time) := by
  constructor
  · intro frames end_time i h
    exact List.pairwise_iff_get.mp (sortNotes_sorted _) ⟨i, Nat.lt_of_succ_lt h⟩ ⟨i+1, h⟩
      (Fin.mk_lt_mk.mpr (Nat.lt_succ_self i))
  · intro msgs i h
    exact List.pairwise_iff_get.mp (sortNotes_sorted _) ⟨i, Nat.lt_of_succ_lt h⟩ ⟨i+1, h⟩
      (Fin.mk_lt_mk.mpr (Nat.lt_succ_self i))

/-- Witness for C4: both concrete collections hold two notes in order. -/
theorem timeline_sorted_witness :
    ((apuPreprocessed witFrames 1).get ⟨0, Nat.lt_of_succ_lt (by decide)⟩).start_time ≤
      ((apuPreprocessed witFrames 1).get ⟨1, by decide⟩).start_time ∧
    ((preprocessMidi cexMsgs).get ⟨0, Nat.lt_of_succ_lt (by decide)⟩).start_time ≤
      ((preprocessMidi cexMsgs).get ⟨1, by decide⟩).start_time :=
  ⟨timeline_sorted.1 witFrames 1 0 (by decide),
   timeline_sorted.2 cexMsgs 0 (by decide)⟩

/-- C6: `preprocessTrack` estimates the duration as the backend's declared
length (ms, when positive) or 180 s, capped at 300 s; the chunk loop runs
exactly while the virtual time is below the estimate and the backend has
not reported end-of-track, advancing the virtual clock by
`1024 / sample_rate` (1024 frames) per iteration; and segmentation is
finalized at the virtual time reached. -/
theorem preprocess_horizon :
    ∀ (info_length : ℤ) (ended : ℕ → Bool)
      (snapshots : ℕ → ApuSnap × Option Vrc6Snap) (sample_rate : ℚ),
      0 < sample_rate →
      (0 < info_length →
        estimatedDuration info_length = min ((info_length : ℚ) / 1000) 300) ∧
      (info_length ≤ 0 → estimatedDuration info_length = 180) ∧
      estimatedDuration info_length ≤ 300 ∧
      (∀ j < preprocessChunks info_length ended sample_rate,
        (j : ℚ) * (1024 / sample_rate) < estimatedDuration info_length ∧
          ended j = false) ∧
      (estimatedDuration info_length ≤
          (preprocessChunks info_length ended sample_rate : ℚ) * (1024 / sample_rate) ∨
        ended (preprocessChunks info_length ended sample_rate) = true) ∧
      preprocessTrack false info_length false ended snapshots sample_rate =
        ⟨true,
          apuPreprocessed
            ((List.range (preprocessChunks info_length ended sample_rate)).map
              (fun (k : ℕ) => Frame.mk (snapshots k).1 (snapshots k).2
                ((k : ℚ) * (1024 / sample_rate))))
            ((preprocessChunks info_length ended sample_rate : ℚ) * (1024 / sample_rate)),
          true,
          (preprocessChunks info_length ended sample_rate : ℚ) * (1024 / sample_rate)⟩ := by
  intro info_length ended snapshots sample_rate hrate
  have hdt : (0:ℚ) < 1024 / sample_rate := by positivity
  obtain ⟨hmid, hstop⟩ := numChunks_spec ended (estimatedDuration info_length)
    (1024 / sample_rate) hdt
  refine ⟨?_, ?_, ?_, hmid, hstop, rfl⟩
  · intro h
    rw [estimatedDuration, if_pos h]
  · intro h
    rw [estimatedDuration, if_neg (not_lt.mpr h)]
    norm_num
  · exact min_le_right _ _

/-- Witness for C6 at a 60 s track and 48 kHz sample rate. -/
theorem preprocess_horizon_witness :
    (0:ℚ) < 48000 ∧ (0:ℤ) < 60000 ∧
      estimatedDuration 60000 = min ((60000 : ℚ) / 1000) 300 :=
  ⟨by norm_num, by norm_num,
    (preprocess_horizon 60000 (fun _ => false)
      (fun _ => (⟨fun _ => 0, fun _ => 0, fun _ => 0⟩, none)) 48000 (by norm_num)).1
      (by norm_num)⟩

/-- C9: MIDI segmentation events.  A note opens on note-on with positive
velocity (stored velocity `midi_velocity/127`) and closes on the matching
note-off or zero-velocity note-on; notes still open at end of stream are
force-closed at `last_event_time + 0.5 s`.  In particular
note-on(ch 0, key 60, vel 100, t = 0) followed by
note-on(ch 0, key 60, vel 0, t = 500 ms) yields exactly one
`Note{channel 0, pitch 60, start 0, end 0.5}`. -/
theorem midi_event_segmentation :
    preprocessMidi sc2Msgs = [⟨0, 60, 100/127, 0, 1/2⟩] ∧
    preprocessMidi offMsgs = [⟨0, 60, 100/127, 0, 3/10⟩] ∧
    preprocessMidi openMsgs = [⟨0, 60, 100/127, 0, 6/5⟩] ∧
    (∀ msgs (c k : ℤ), ((midiMainPass msgs).states c k).active = true →
      ∃ n ∈ preprocessMidi msgs, n.channel = c ∧ n.midi_note = k ∧
        n.velocity = ((midiMainPass msgs).states c k).velocity ∧
        n.start_time = ((midiMainPass msgs).states c k).start_time ∧
        n.end_time = (midiMainPass msgs).max_time + 1/2) :=
  ⟨by decide, by decide, by decide, preprocessMidi_force_close⟩

/-- Witness for C9's force-close clause at a concrete still-open note. -/
theorem midi_event_segmentation_witness :
    ((midiMainPass openMsgs).states 0 60).active = true ∧
      ∃ n ∈ preprocessMidi openMsgs, n.channel = 0 ∧ n.midi_note = 60 ∧
        n.velocity = ((midiMainPass openMsgs).states 0 60).velocity ∧
        n.start_time = ((midiMainPass openMsgs).states 0 60).start_time ∧
        n.end_time = (midiMainPass openMsgs).max_time + 1/2 :=
  ⟨by decide, midi_event_segmentation.2.2.2 openMsgs 0 60 (by decide)⟩

/-- Witness for C10 at channel 16 (first out-of-range channel). -/
theorem midi_note_range_guard_witness :
    ((16:ℤ) < 0 ∨ (16:ℤ) ≥ 16 ∨ (60:ℤ) < 0 ∨ (127:ℤ) < 60) ∧
      midiNoteOn ⟨fun _ => ⟨0, 0, 0, false⟩, fun _ _ => ⟨false, 0, 0⟩, []⟩ 16 60 (1/2) 0
        = ⟨fun _ => ⟨0, 0, 0, false⟩, fun _ _ => ⟨false, 0, 0⟩, []⟩ :=
  ⟨Or.inr (Or.inl (by decide)),
    (midi_note_range_guard ⟨fun _ => ⟨0, 0, 0, false⟩, fun _ _ => ⟨false, 0, 0⟩, []⟩
      16 60 (1/2) 0 (Or.inr (Or.inl (by decide)))).1⟩

end FcVis
